import Mathlib

/-!
Shallow embedding of the scoring pipeline of `src/app.py` (a Streamlit
AI-text-detector).  Text is modelled as `List Char`; floating-point scores
are modelled as exact rationals `ℚ`; the external classifier is modelled as
an explicit function argument.  Each definition mirrors one piece of the
Python source.
-/

set_option autoImplicit false

namespace App

/-- Whitespace test used by the regex class `\s` and by `str.strip()` in the
source (restricted to the ASCII whitespace characters, which is what the
source's behaviour turns on for the inputs in scope). -/
def isSpace (c : Char) : Bool :=
  c = ' ' || c = '\t' || c = '\n' || c = '\r' || c = '\x0b' || c = '\x0c'

/-- Sentence-terminating punctuation of the regex lookbehind `(?<=[.!?])`. -/
def isTermChar (c : Char) : Bool :=
  c = '.' || c = '!' || c = '?'

/-- Lookbehind on an optional previous character: a match of the split regex
needs a preceding character in `[.!?]`, so at the start of the text (no
previous character) there is never a split. -/
def isTermOpt : Option Char → Bool
  | some c => isTermChar c
  | none => false

/-- The ASCII uppercase class `[A-Z]` of the regex lookahead. -/
def isUpperAZ (c : Char) : Bool :=
  'A' ≤ c && c ≤ 'Z'

/-- Lookahead `(?=[A-Z])` applied after skipping the whitespace run. -/
def isUpperHead : List Char → Bool
  | [] => false
  | c :: _ => isUpperAZ c

/-- One left-to-right scan implementing
`re.split(r'(?<=[.!?])\s+(?=[A-Z])', text)` from `simple_sentence_tokenize`
(src/app.py line 12).  `acc` holds the current piece reversed (so `acc.head?`
is the lookbehind character); `skipping` is true while the matched whitespace
delimiter is being consumed.  A delimiter match is a maximal whitespace run
preceded by `[.!?]` and followed by `[A-Z]`: the regex `\s+` is greedy and a
shorter run would be followed by whitespace, which is not in `[A-Z]`, so only
the maximal run can satisfy the lookahead. -/
def goTok : Bool → List Char → List Char → List (List Char)
  | _, acc, [] => [acc.reverse]
  | skipping, acc, c :: rest =>
    if skipping && isSpace c then
      goTok true acc rest
    else if isTermOpt acc.head? && isSpace c
        && isUpperHead (rest.dropWhile fun d => isSpace d) then
      acc.reverse :: goTok true [] rest
    else
      goTok false (c :: acc) rest

/-- Python `str.strip()`: remove leading and trailing whitespace. -/
def strip (l : List Char) : List Char :=
  ((l.dropWhile fun c => isSpace c).reverse.dropWhile fun c => isSpace c).reverse

/-- Embedding of `simple_sentence_tokenize` (src/app.py lines 8-16): regex split, then
strip each piece and drop the pieces that strip to empty, then the fallback
that returns the whole stripped text when the list is empty but the text is
not whitespace-only. -/
def simple_sentence_tokenize (text : List Char) : List (List Char) :=
  let sentences := goTok false [] text
  let final_sentences := (sentences.map strip).filter fun s => !s.isEmpty
  if final_sentences.isEmpty && !(strip text).isEmpty then
    [strip text]
  else
    final_sentences

/-- Per-character table of Python `html.escape` (quote=True).  The source
applies sequential `str.replace` calls with `&` first; since no replacement
output contains a character replaced later (the `&` introduced by `&lt;` etc.
is produced after the `&` pass), the sequential replaces coincide with this
independent per-character map. -/
def escapeChar (c : Char) : List Char :=
  if c = '&' then "&amp;".toList
  else if c = '<' then "&lt;".toList
  else if c = '>' then "&gt;".toList
  else if c = '"' then "&quot;".toList
  else if c = '\'' then "&#x27;".toList
  else [c]

/-- Embedding of `html.escape` applied to a sentence (src/app.py line 49). -/
def html_escape (s : List Char) : List Char :=
  s.flatMap escapeChar

/-- Python `str.lower()` on a label: lower-case each character (restricted to
the ASCII case mapping, which covers the classifier's label alphabet). -/
def strLower (s : String) : String :=
  ⟨s.data.map Char.toLower⟩

/-- Score normalization of src/app.py lines 35-38: the AI probability is the
confidence when the label is `"fake"` case-insensitively, else one minus the
confidence, clamped into `[0, 1]` by `max(0.0, min(1.0, ai_prob))`. -/
def normalize (label : String) (score : ℚ) : ℚ :=
  let ai_prob := if strLower label = "fake" then score else 1 - score
  max 0 (min 1 ai_prob)

/-- The aggregation expression of src/app.py line 52:
`sum(scores) / len(scores) if scores else 0.0`. -/
def aggregate (sentence_scores : List ℚ) : ℚ :=
  if !sentence_scores.isEmpty then
    sentence_scores.sum / (sentence_scores.length : ℚ)
  else 0

/-- Per-sentence highlight colour selection (src/app.py lines 42-47):
`score > 0.75` yields the strong red, `score > 0.5` the orange, otherwise
transparent (no highlight). -/
def sentenceColor (score : ℚ) : String :=
  if score > 0.75 then "rgba(255, 77, 77, 0.6)"
  else if score > 0.5 then "rgba(255, 165, 0, 0.5)"
  else "transparent"

/-- The span emitted for one sentence (src/app.py line 50): the f-string
wrapper around the escaped sentence, with the colour chosen from the score. -/
def spanHtml (sent : List Char) (score : ℚ) : List Char :=
  ("<span style=\"background-color: " ++ sentenceColor score
    ++ "; padding: 2px 1px; line-height: 1.7;\">").toList
  ++ html_escape sent
  ++ "</span> ".toList

/-- Embedding of `analyze_and_highlight` (src/app.py lines 23-53).  The `detector` is the
external classifier: a function from the list of sentences to a same-order
list of (label, confidence) results.  Scores come from all results; the
highlight loop zips sentences with scores (`zip` truncates, as in Python). -/
def analyze_and_highlight (detector : List (List Char) → List (String × ℚ))
    (text : List Char) : List Char × ℚ :=
  let sentences := simple_sentence_tokenize text
  if sentences.isEmpty then ([], 0)
  else
    let results := detector sentences
    let sentence_scores := results.map fun r => normalize r.1 r.2
    let highlighted_text := (sentences.zip sentence_scores).foldl
      (fun acc p => acc ++ spanHtml p.1 p.2) []
    (highlighted_text, aggregate sentence_scores)

/-- Overall verdict selection (src/app.py lines 186-191). -/
def verdict (overall_ai_prob : ℚ) : String :=
  if overall_ai_prob ≥ 0.7 then "😲 **這段文字「很有可能」是 AI 生成的。**"
  else if overall_ai_prob > 0.4 then "🤔 **這段文字「可能」帶有 AI 生成的特徵。**"
  else "😊 **這段文字「比較像」是人類撰寫的。**"

/-- Outcome of one press of the analyze button. -/
inductive AnalysisOutcome : Type
  | emptyPrompt : AnalysisOutcome
  | belowThresholdWarning : Nat → Nat → AnalysisOutcome
  | analyzed : List Char → ℚ → String → AnalysisOutcome

/-- The top-level analyze branch (src/app.py lines 159-191): empty or
whitespace-only text gets the enter-text prompt; text shorter than `min_len`
gets only the length warning (the `elif` skips the analysis); otherwise the
classifier runs and a verdict is produced. -/
def runAnalyze (detector : List (List Char) → List (String × ℚ))
    (text : List Char) (min_len : Nat) : AnalysisOutcome :=
  if (strip text).isEmpty then .emptyPrompt
  else if text.length < min_len then .belowThresholdWarning text.length min_len
  else
    let r := analyze_and_highlight detector text
    .analyzed r.1 r.2 (verdict r.2)

/-- True exactly on the outcome in which the classifier was invoked and an
analysis result is displayed. -/
def producesResult : AnalysisOutcome → Bool
  | .analyzed _ _ _ => true
  | _ => false

/-- A concrete deterministic classifier stub used in witnesses: every
sentence is labelled `"fake"` with confidence 1. -/
def allFakeDetector : List (List Char) → List (String × ℚ) :=
  fun sents => sents.map fun _ => ("fake", (1 : ℚ))

/-- The classifier stub that answers only non-empty batches; it agrees with
`allFakeDetector` on every batch the pipeline actually sends. -/
def guardedDetector : List (List Char) → List (String × ℚ) :=
  fun sents => if sents.isEmpty then [] else sents.map fun _ => ("fake", (1 : ℚ))

/-- The subsequence of non-whitespace characters of a character list; the
segmentation invariant of the spec is stated in terms of it. -/
def visible (l : List Char) : List Char :=
  l.filter fun c => !isSpace c

/-- Does `pat` occur as a leading block of `l`? -/
def startsWith : List Char → List Char → Bool
  | [], _ => true
  | _ :: _, [] => false
  | p :: ps, c :: cs => p = c && startsWith ps cs

/-- Does `pat` occur as a contiguous substring of `l`? -/
def hasSub (pat : List Char) : List Char → Bool
  | [] => pat.isEmpty
  | c :: cs => startsWith pat (c :: cs) || hasSub pat cs

/-! ### Helper lemmas -/

theorem visible_append (a b : List Char) :
    visible (a ++ b) = visible a ++ visible b := by
  simp [visible, List.filter_append]

theorem visible_cons_space {c : Char} (l : List Char) (h : isSpace c = true) :
    visible (c :: l) = visible l := by
  simp [visible, List.filter_cons, h]

theorem visible_reverse (l : List Char) :
    visible l.reverse = (visible l).reverse := by
  simp [visible, List.filter_reverse]

theorem visible_dropWhile (l : List Char) :
    visible (l.dropWhile fun c => isSpace c) = visible l := by
  conv_rhs => rw [← List.takeWhile_append_dropWhile (fun c => isSpace c) l]
  rw [visible_append]
  have h : visible (l.takeWhile fun c => isSpace c) = [] := by
    refine List.filter_eq_nil_iff.mpr ?_
    intro a ha
    have := List.mem_takeWhile_imp ha
    simp [this]
  rw [h, List.nil_append]

theorem visible_strip (l : List Char) : visible (strip l) = visible l := by
  unfold strip
  rw [visible_reverse, visible_dropWhile, visible_reverse, visible_dropWhile,
    List.reverse_reverse]

theorem strip_eq_nil_iff (l : List Char) :
    strip l = [] ↔ ∀ c ∈ l, isSpace c = true := by
  constructor
  · intro h c hc
    have h1 : ((l.dropWhile fun c => isSpace c).reverse.dropWhile fun c => isSpace c)
        = [] := by
      have := congrArg List.reverse h
      simpa [strip] using this
    have h2 : ∀ x ∈ (l.dropWhile fun c => isSpace c), isSpace x = true := by
      intro x hx
      exact List.dropWhile_eq_nil_iff.mp h1 x (List.mem_reverse.mpr hx)
    rcases List.mem_append.mp
        (by rw [List.takeWhile_append_dropWhile (fun c => isSpace c) l]; exact hc :
          c ∈ (l.takeWhile fun c => isSpace c) ++ (l.dropWhile fun c => isSpace c)) with
      h3 | h3
    · exact List.mem_takeWhile_imp h3
    · exact h2 c h3
  · intro h
    have h1 : (l.dropWhile fun c => isSpace c) = [] :=
      List.dropWhile_eq_nil_iff.mpr h
    simp [strip, h1]

theorem visible_eq_nil_iff (l : List Char) :
    visible l = [] ↔ ∀ c ∈ l, isSpace c = true := by
  unfold visible
  rw [List.filter_eq_nil_iff]
  constructor
  · intro h c hc
    have := h c hc
    simpa using this
  · intro h c hc
    simp [h c hc]

theorem strip_eq_nil_iff_visible (l : List Char) :
    strip l = [] ↔ visible l = [] := by
  rw [strip_eq_nil_iff, visible_eq_nil_iff]

theorem visible_flatten_goTok :
    ∀ (l : List Char) (skipping : Bool) (acc : List Char),
      visible (goTok skipping acc l).flatten = visible (acc.reverse ++ l)
  | [], skipping, acc => by simp [goTok]
  | c :: rest, skipping, acc => by
    rw [goTok]
    by_cases h1 : (skipping && isSpace c) = true
    · rw [if_pos h1, visible_flatten_goTok rest true acc]
      have hc : isSpace c = true := by
        simp only [Bool.and_eq_true] at h1
        exact h1.2
      rw [visible_append, visible_append, visible_cons_space rest hc]
    · rw [if_neg h1]
      by_cases h2 : (isTermOpt acc.head? && isSpace c
          && isUpperHead (rest.dropWhile fun d => isSpace d)) = true
      · rw [if_pos h2]
        have hc : isSpace c = true := by
          simp only [Bool.and_eq_true] at h2
          exact h2.1.2
        rw [List.flatten_cons, visible_append,
          visible_flatten_goTok rest true [],
          visible_append acc.reverse (c :: rest),
          visible_cons_space rest hc]
        simp
      · rw [if_neg h2, visible_flatten_goTok rest false (c :: acc)]
        simp [visible_append]

theorem visible_flatten_filtered :
    ∀ pieces : List (List Char),
      visible ((pieces.map strip).filter fun s => !s.isEmpty).flatten
        = visible pieces.flatten
  | [] => by simp
  | p :: ps => by
    rw [List.map_cons, List.filter_cons]
    by_cases h : strip p = []
    · have hvp : visible p = [] := (strip_eq_nil_iff_visible p).mp h
      rw [h, if_neg (by simp)]
      rw [visible_flatten_filtered ps, List.flatten_cons, visible_append, hvp,
        List.nil_append]
    · have hne : (!(strip p).isEmpty) = true := by
        simp [List.isEmpty_iff, h]
      rw [if_pos hne, List.flatten_cons, List.flatten_cons, visible_append,
        visible_append, visible_strip, visible_flatten_filtered ps]

/-- The concatenation of the tokenizer's output has exactly the
non-whitespace characters of the input, in order. -/
theorem visible_tokenize (t : List Char) :
    visible (simple_sentence_tokenize t).flatten = visible t := by
  unfold simple_sentence_tokenize
  by_cases h : ((((goTok false [] t).map strip).filter fun s => !s.isEmpty).isEmpty
      && !(strip t).isEmpty) = true
  · rw [if_pos h]
    rw [List.flatten_cons, List.flatten_nil, List.append_nil, visible_strip]
  · rw [if_neg h]
    have := visible_flatten_goTok t false []
    rw [visible_flatten_filtered (goTok false [] t), this, List.reverse_nil,
      List.nil_append]

theorem mem_tokenize_ne_nil (t : List Char) :
    ∀ s ∈ simple_sentence_tokenize t, s ≠ [] := by
  unfold simple_sentence_tokenize
  by_cases h : ((((goTok false [] t).map strip).filter fun s => !s.isEmpty).isEmpty
      && !(strip t).isEmpty) = true
  · rw [if_pos h]
    intro s hs
    have hstrip : (!(strip t).isEmpty) = true := by
      simp only [Bool.and_eq_true] at h
      exact h.2
    have : s = strip t := by simpa using hs
    subst this
    intro hnil
    rw [hnil] at hstrip
    simp at hstrip
  · rw [if_neg h]
    intro s hs
    have := (List.mem_filter.mp hs).2
    intro hnil
    rw [hnil] at this
    simp at this

theorem filtered_ne_nil_of_strip_ne_nil (t : List Char) (h : strip t ≠ []) :
    ((goTok false [] t).map strip).filter (fun s => !s.isEmpty) ≠ [] := by
  intro hfil
  have h1 : visible ((((goTok false [] t).map strip).filter
      fun s => !s.isEmpty)).flatten = visible t := by
    rw [visible_flatten_filtered (goTok false [] t),
      visible_flatten_goTok t false []]
    simp
  rw [hfil] at h1
  simp only [List.flatten_nil] at h1
  have : strip t = [] := (strip_eq_nil_iff_visible t).mpr (by
    rw [← h1]; rfl)
  exact h this

theorem tokenize_eq_nil_iff (t : List Char) :
    simple_sentence_tokenize t = [] ↔ strip t = [] := by
  constructor
  · intro h
    by_contra hne
    have hfil := filtered_ne_nil_of_strip_ne_nil t hne
    unfold simple_sentence_tokenize at h
    by_cases hc : ((((goTok false [] t).map strip).filter fun s => !s.isEmpty).isEmpty
        && !(strip t).isEmpty) = true
    · rw [if_pos hc] at h
      exact List.cons_ne_nil _ _ h
    · rw [if_neg hc] at h
      exact hfil h
  · intro h
    unfold simple_sentence_tokenize
    have hfil : ((goTok false [] t).map strip).filter (fun s => !s.isEmpty) = [] := by
      by_contra hne
      obtain ⟨s, hs⟩ := List.exists_mem_of_ne_nil _ hne
      have hsne : s ≠ [] := by
        have := (List.mem_filter.mp hs).2
        intro hnil
        rw [hnil] at this
        simp at this
      obtain ⟨p, hp, hps⟩ := List.mem_map.mp (List.mem_filter.mp hs).1
      have hvt : visible t = [] := (strip_eq_nil_iff_visible t).mp h
      have hflat : visible (goTok false [] t).flatten = [] := by
        rw [visible_flatten_goTok t false []]
        simpa using hvt
      have hvp : visible p = [] := by
        have h2 : ((goTok false [] t).map visible).flatten = [] := by
          have := List.filter_flatten (fun c => !isSpace c) (goTok false [] t)
          unfold visible at hflat
          rw [this] at hflat
          simpa [visible] using hflat
        exact (List.flatten_eq_nil_iff.mp h2) (visible p)
          (List.mem_map.mpr ⟨p, hp, rfl⟩)
      have : strip p = [] := (strip_eq_nil_iff_visible p).mpr hvp
      exact hsne (by rw [← hps]; exact this)
    simp [hfil, h]

/-! ### Claim theorems -/

/-- C1 (counterexample): with the default threshold 200 and the non-empty
three-character text `"Hi."`, the app produces only the length warning and
no analysis result: the claim that a below-threshold submission is still
analysed is false on the code. -/
theorem short_text_is_not_analyzed :
    producesResult (runAnalyze allFakeDetector "Hi.".toList 200) = false
    ∧ (strip "Hi.".toList).isEmpty = false
    ∧ ("Hi.".toList).length < 200 := by
  refine ⟨by decide, by decide, by decide⟩

/-- C1 (amended): when the submitted text is non-empty (not whitespace-only)
but shorter than the configured minimum, the app does not run the analysis at
all: it renders only the below-threshold warning carrying the actual and
recommended lengths, and the classifier is never invoked. -/
theorem below_threshold_warns_without_analysis
    (detector : List (List Char) → List (String × ℚ))
    (text : List Char) (min_len : Nat)
    (hne : (strip text).isEmpty = false) (hlt : text.length < min_len) :
    runAnalyze detector text min_len
      = AnalysisOutcome.belowThresholdWarning text.length min_len := by
  unfold runAnalyze
  rw [if_neg (by simp [hne]), if_pos hlt]

/-- Witness for the amended C1 at the concrete input `"Hi."`, threshold 200. -/
theorem below_threshold_warns_without_analysis_witness :
    runAnalyze allFakeDetector "Hi.".toList 200
      = AnalysisOutcome.belowThresholdWarning ("Hi.".toList).length 200 :=
  below_threshold_warns_without_analysis allFakeDetector "Hi.".toList 200
    (by decide) (by decide)

/-- C2: the per-sentence highlight tier is a total deterministic function of
the score with half-open boundaries: `score > 0.75` gives the strong red,
`0.5 < score <= 0.75` the moderate orange, `score <= 0.5` no highlight, and
a score of exactly 0.75 gives the moderate orange, not the strong red. -/
theorem sentence_tier_spec (score : ℚ) :
    (score > 0.75 → sentenceColor score = "rgba(255, 77, 77, 0.6)")
    ∧ (0.5 < score → score ≤ 0.75 → sentenceColor score = "rgba(255, 165, 0, 0.5)")
    ∧ (score ≤ 0.5 → sentenceColor score = "transparent")
    ∧ sentenceColor 0.75 = "rgba(255, 165, 0, 0.5)" := by
  refine ⟨?_, ?_, ?_, ?_⟩
  · intro h
    unfold sentenceColor
    rw [if_pos h]
  · intro h1 h2
    unfold sentenceColor
    rw [if_neg (by simp; linarith), if_pos (by exact h1)]
  · intro h
    unfold sentenceColor
    rw [if_neg (by simp; linarith), if_neg (by simp; linarith)]
  · unfold sentenceColor
    rw [if_neg (by norm_num), if_pos (by norm_num)]

/-- Witness for C2: one concrete score in each tier. -/
theorem sentence_tier_spec_witness :
    sentenceColor 1 = "rgba(255, 77, 77, 0.6)"
    ∧ sentenceColor (3/5) = "rgba(255, 165, 0, 0.5)"
    ∧ sentenceColor 0 = "transparent" :=
  ⟨(sentence_tier_spec 1).1 (by norm_num),
   (sentence_tier_spec (3/5)).2.1 (by norm_num) (by norm_num),
   (sentence_tier_spec 0).2.2.1 (by norm_num)⟩

/-- C3: the overall verdict tier is a total deterministic function of the
overall score with half-open boundaries: `score >= 0.7` gives the likely-AI
verdict, `0.4 < score < 0.7` the possibly-AI verdict, `score <= 0.4` the
likely-human verdict; exactly 0.7 is likely-AI and exactly 0.4 is
likely-human. -/
theorem verdict_tier_spec (p : ℚ) :
    (p ≥ 0.7 → verdict p = "😲 **這段文字「很有可能」是 AI 生成的。**")
    ∧ (0.4 < p → p < 0.7 → verdict p = "🤔 **這段文字「可能」帶有 AI 生成的特徵。**")
    ∧ (p ≤ 0.4 → verdict p = "😊 **這段文字「比較像」是人類撰寫的。**")
    ∧ verdict 0.7 = "😲 **這段文字「很有可能」是 AI 生成的。**"
    ∧ verdict 0.4 = "😊 **這段文字「比較像」是人類撰寫的。**" := by
  refine ⟨?_, ?_, ?_, ?_, ?_⟩
  · intro h
    unfold verdict
    rw [if_pos h]
  · intro h1 h2
    unfold verdict
    rw [if_neg (by simp; linarith), if_pos (by exact h1)]
  · intro h
    unfold verdict
    rw [if_neg (by simp; linarith), if_neg (by simp; linarith)]
  · unfold verdict
    rw [if_pos (by norm_num)]
  · unfold verdict
    rw [if_neg (by norm_num), if_neg (by norm_num)]

/-- Witness for C3: one concrete score in each tier. -/
theorem verdict_tier_spec_witness :
    verdict 1 = "😲 **這段文字「很有可能」是 AI 生成的。**"
    ∧ verdict (1/2) = "🤔 **這段文字「可能」帶有 AI 生成的特徵。**"
    ∧ verdict 0 = "😊 **這段文字「比較像」是人類撰寫的。**" :=
  ⟨(verdict_tier_spec 1).1 (by norm_num),
   (verdict_tier_spec (1/2)).2.1 (by norm_num) (by norm_num),
   (verdict_tier_spec 0).2.2.1 (by norm_num)⟩

/-- C4: score normalization returns the confidence itself when the label is
the positive label `"fake"` case-insensitively, and one minus the confidence
for every other label; for a confidence already in `[0,1]` the clamp is the
identity, and the output always lies in `[0,1]`. -/
theorem normalize_spec (label : String) (c : ℚ) (h0 : 0 ≤ c) (h1 : c ≤ 1) :
    (0 ≤ normalize label c ∧ normalize label c ≤ 1)
    ∧ (strLower label = "fake" → normalize label c = c)
    ∧ (strLower label ≠ "fake" → normalize label c = 1 - c) := by
  by_cases h : strLower label = "fake"
  · have he : normalize label c = c := by
      simp only [normalize]
      rw [if_pos h, min_eq_right h1, max_eq_right h0]
    exact ⟨⟨by rw [he]; exact h0, by rw [he]; exact h1⟩,
      fun _ => he, fun hn => absurd h hn⟩
  · have he : normalize label c = 1 - c := by
      simp only [normalize]
      rw [if_neg h, min_eq_right (by linarith), max_eq_right (by linarith)]
    exact ⟨⟨by rw [he]; linarith, by rw [he]; linarith⟩,
      fun hf => absurd hf h, fun _ => he⟩

/-- Witness for C4: the positive label in mixed case, a negative label and an
unexpected third label, each at a concrete confidence. -/
theorem normalize_spec_witness :
    normalize "Fake" (3/4) = 3/4
    ∧ normalize "real" (3/4) = 1 - 3/4
    ∧ 0 ≤ normalize "LABEL_2" (1/2) :=
  ⟨(normalize_spec "Fake" (3/4) (by norm_num) (by norm_num)).2.1 (by decide),
   (normalize_spec "real" (3/4) (by norm_num) (by norm_num)).2.2 (by decide),
   (normalize_spec "LABEL_2" (1/2) (by norm_num) (by norm_num)).1.1⟩

/-- C5: for a non-empty score sequence with every score in `[0,1]`, the
aggregate equals the arithmetic mean and lies in `[0,1]`; for the empty
sequence the aggregate is 0 (the division is never taken). -/
theorem aggregate_spec (scores : List ℚ) :
    ((∀ s ∈ scores, 0 ≤ s ∧ s ≤ 1) → scores ≠ [] →
      aggregate scores = scores.sum / (scores.length : ℚ)
      ∧ 0 ≤ aggregate scores ∧ aggregate scores ≤ 1)
    ∧ aggregate [] = 0 := by
  constructor
  · intro hb hne
    have hagg : aggregate scores = scores.sum / (scores.length : ℚ) := by
      simp [aggregate, hne]
    have hlen : (0:ℚ) < (scores.length : ℚ) := by
      exact_mod_cast List.length_pos.mpr hne
    have hsum0 : 0 ≤ scores.sum := List.sum_nonneg fun x hx => (hb x hx).1
    have hsum1 : scores.sum ≤ (scores.length : ℚ) := by
      have := List.sum_le_card_nsmul scores 1 fun x hx => (hb x hx).2
      simpa using this
    refine ⟨hagg, ?_, ?_⟩
    · rw [hagg]
      exact div_nonneg hsum0 (le_of_lt hlen)
    · rw [hagg, div_le_one hlen]
      exact hsum1
  · rfl

/-- Witness for C5 at the concrete score list `[1/2, 1]`. -/
theorem aggregate_spec_witness :
    aggregate [(1:ℚ)/2, 1] = ([(1:ℚ)/2, 1].sum / (([(1:ℚ)/2, 1].length : ℚ)))
    ∧ 0 ≤ aggregate [(1:ℚ)/2, 1] ∧ aggregate [(1:ℚ)/2, 1] ≤ 1 :=
  (aggregate_spec [(1:ℚ)/2, 1]).1
    (by intro s hs; fin_cases hs <;> norm_num) (by simp)

/-- C6: segmentation edge cases: empty or whitespace-only input yields the
empty sequence; a non-empty input on which the regex split finds no boundary
(the split returns the whole text as its only piece) yields exactly one
sentence equal to the trimmed input; and the two-sentence example splits
into exactly two sentences, each ending in its own period, in order. -/
theorem tokenize_edge_cases (t : List Char) :
    ((∀ c ∈ t, isSpace c = true) → simple_sentence_tokenize t = [])
    ∧ (strip t ≠ [] → goTok false [] t = [t] →
        simple_sentence_tokenize t = [strip t])
    ∧ simple_sentence_tokenize "This is one. This is two.".toList
        = ["This is one.".toList, "This is two.".toList]
    ∧ ("This is one.".toList).getLast? = some '.'
    ∧ ("This is two.".toList).getLast? = some '.' := by
  refine ⟨?_, ?_, by decide, by decide, by decide⟩
  · intro h
    exact (tokenize_eq_nil_iff t).mpr ((strip_eq_nil_iff t).mpr h)
  · intro hne hpieces
    have hf : (strip t).isEmpty = false := List.isEmpty_eq_false.mpr hne
    unfold simple_sentence_tokenize
    rw [hpieces]
    simp [hf]

/-- Witness for C6 at the concrete inputs `""`, `"  "` and `"Hello world"`. -/
theorem tokenize_edge_cases_witness :
    simple_sentence_tokenize "".toList = []
    ∧ simple_sentence_tokenize "  ".toList = []
    ∧ simple_sentence_tokenize "Hello world".toList = [strip "Hello world".toList] :=
  ⟨(tokenize_edge_cases "".toList).1 (by decide),
   (tokenize_edge_cases "  ".toList).1 (by decide),
   (tokenize_edge_cases "Hello world".toList).2.1 (by decide) (by decide)⟩

/-- C7: segmentation never drops non-whitespace characters: the
non-whitespace characters of the concatenated output sentences are exactly
the non-whitespace characters of the input, in order, and every returned
sentence is non-empty. -/
theorem tokenize_preserves_visible_chars (t : List Char) :
    visible (simple_sentence_tokenize t).flatten = visible t
    ∧ ∀ s ∈ simple_sentence_tokenize t, s ≠ [] :=
  ⟨visible_tokenize t, mem_tokenize_ne_nil t⟩

/-- Witness for C7 at the concrete input `"Hi. there"`. -/
theorem tokenize_preserves_visible_chars_witness :
    visible (simple_sentence_tokenize "Hi. there".toList).flatten
      = visible "Hi. there".toList
    ∧ "Hi. there".toList ≠ [] :=
  ⟨(tokenize_preserves_visible_chars "Hi. there".toList).1,
   (tokenize_preserves_visible_chars "Hi. there".toList).2
     "Hi. there".toList (by decide)⟩

theorem lt_not_mem_escapeChar (a : Char) : '<' ∉ escapeChar a := by
  unfold escapeChar
  split_ifs with h1 h2 h3 h4 h5
  · decide
  · decide
  · decide
  · decide
  · decide
  · intro hm
    rw [List.mem_singleton] at hm
    exact h2 hm.symm

theorem lt_not_mem_html_escape (s : List Char) : '<' ∉ html_escape s := by
  intro h
  rw [html_escape, List.mem_flatMap] at h
  obtain ⟨a, _, ha⟩ := h
  exact lt_not_mem_escapeChar a ha

theorem mem_of_startsWith : ∀ (pat l : List Char) (c : Char),
    startsWith pat l = true → c ∈ pat → c ∈ l
  | [], _, c, _, hc => absurd hc (List.not_mem_nil c)
  | _ :: _, [], _, hs, _ => by rw [startsWith] at hs; exact absurd hs (by simp)
  | p :: ps, d :: ds, c, hs, hc => by
    rw [startsWith, Bool.and_eq_true] at hs
    rcases List.mem_cons.mp hc with h | h
    · have hpd : p = d := of_decide_eq_true hs.1
      rw [h, hpd]
      exact List.mem_cons_self d ds
    · exact List.mem_cons_of_mem d (mem_of_startsWith ps ds c hs.2 h)

theorem mem_of_hasSub : ∀ (l pat : List Char) (c : Char),
    hasSub pat l = true → c ∈ pat → c ∈ l
  | [], pat, c, hh, hc => by
    rw [hasSub] at hh
    rw [List.isEmpty_iff.mp hh] at hc
    exact absurd hc (List.not_mem_nil c)
  | d :: ds, pat, c, hh, hc => by
    rw [hasSub] at hh
    rcases (Bool.or_eq_true _ _ ▸ hh : _ ∨ _) with h | h
    · exact mem_of_startsWith pat (d :: ds) c h hc
    · exact List.mem_cons_of_mem d (mem_of_hasSub ds pat c h hc)

/-- C8: rendering escapes markup: a sentence containing the raw substring
`<script>` is escaped into output that contains no raw `<script>` substring
(indeed no raw `<` at all survives escaping). -/
theorem escaped_sentence_has_no_script_tag (sent : List Char)
    (_h : hasSub "<script>".toList sent = true) :
    hasSub "<script>".toList (html_escape sent) = false := by
  cases hb : hasSub "<script>".toList (html_escape sent) with
  | false => rfl
  | true =>
    have hlt : '<' ∈ html_escape sent :=
      mem_of_hasSub (html_escape sent) "<script>".toList '<' hb (by decide)
    exact absurd hlt (lt_not_mem_html_escape sent)

/-- Witness for C8 at a concrete sentence carrying a script tag. -/
theorem escaped_sentence_has_no_script_tag_witness :
    hasSub "<script>".toList "a<script>b".toList = true
    ∧ hasSub "<script>".toList (html_escape "a<script>b".toList) = false :=
  ⟨by decide, escaped_sentence_has_no_script_tag "a<script>b".toList (by decide)⟩

/-- C9: the analysis pipeline is a deterministic function of the input text
and of the classifier's answer on the segmented sentences: two classifiers
that agree on the sentence list of a text produce identical highlighted
output, identical per-sentence scores, and an identical overall probability
(the pipeline reads no other state, and running it twice on the same input
with the same deterministic classifier trivially gives the same result). -/
theorem pipeline_depends_only_on_classifier_output
    (d₁ d₂ : List (List Char) → List (String × ℚ)) (t : List Char)
    (h : d₁ (simple_sentence_tokenize t) = d₂ (simple_sentence_tokenize t)) :
    analyze_and_highlight d₁ t = analyze_and_highlight d₂ t := by
  simp only [analyze_and_highlight]
  rw [h]

/-- Witness for C9: two syntactically different classifier stubs that agree
on the sentence list of `"Hi."` give the same analysis. -/
theorem pipeline_depends_only_on_classifier_output_witness :
    analyze_and_highlight allFakeDetector "Hi.".toList
      = analyze_and_highlight guardedDetector "Hi.".toList :=
  pipeline_depends_only_on_classifier_output allFakeDetector guardedDetector
    "Hi.".toList (by decide)

/-- C10: the fallback branch of the tokenizer is unreachable: the guarding
condition is false for every input (when the trimmed input is non-empty, the
split-and-trim already yields at least one sentence), and the returned list
is empty exactly when the trimmed input is empty. -/
theorem fallback_branch_unreachable (t : List Char) :
    ((((goTok false [] t).map strip).filter fun s => !s.isEmpty).isEmpty
        && !(strip t).isEmpty) = false
    ∧ (simple_sentence_tokenize t = [] ↔ strip t = []) := by
  constructor
  · by_cases h : strip t = []
    · simp [h]
    · have hne := filtered_ne_nil_of_strip_ne_nil t h
      simp [List.isEmpty_eq_false.mpr hne]
  · exact tokenize_eq_nil_iff t

end App
